import Mathlib

/-!
Shallow embedding of the region/strip core of the `mgv` RegionManager
(`src/components/RegionManager.js` in the repository, provided as
`src/unnamed/part_000`).  JavaScript numbers are modelled by `ℚ`
(the idealized exact arithmetic; the spec only asks for results up to
floating-point tolerance), `Math.floor` by `Int.floor`, nullable values
by `Option`, and the mutable arrays of strips/regions by lists that the
operations rebuild.  Object identity bookkeeping (the `id` field handed
out by `makeRegion`) plays no role in the claims below and is omitted.
-/

namespace MGV

/-- Chromosome: name and length in base pairs (`Genome.chromosomes` entries). -/
structure Chromosome where
  name : String
  length : ℚ
  deriving DecidableEq

/-- Genome: identity plus its ordered chromosomes. -/
structure Genome where
  name : String
  chromosomes : List Chromosome
  deriving DecidableEq

/-- Region, as built by `makeRegion` and mutated by layout/navigation.
`chr` stores the chromosome name (the JS code keeps a chromosome object and
reads `chr.name`).  `length` is the derived `end - start + 1` field written
by `layoutStrip`; it is 0 until a layout runs. -/
structure Region where
  genome : String
  chr : String
  start : ℚ
  «end» : ℚ
  width : ℚ
  deltaX : ℚ
  length : ℚ
  reversed : Bool
  deriving DecidableEq

/-- Strip: one genome's ordered row of regions. -/
structure Strip where
  genome : String
  regions : List Region
  deriving DecidableEq

/-- Landmark specification (`lcoords` object in the source). -/
structure LCoords where
  landmark : String
  lgenome : String
  anchor : Option ℚ
  delta : ℚ
  length : ℚ
  deriving DecidableEq

/-- Coordinate projection of a region: the fields navigation geometry must
not corrupt (chromosome and the base-pair window). -/
def coordsOf (r : Region) : String × ℚ × ℚ := (r.chr, r.start, r.«end»)

/-- zoomScrollRegion from the source:
fails (`u.fail`, modelled as `none`) when `zAmt ≤ 0`; otherwise
`L = end-start+1`, `L2 = zAmt*L`,
`delta = sAmt * max L L2 * (reversed ? -1 : 1)`, `mid = (start+end)/2`,
`start := floor(mid - L2/2 + delta + 1)`, `end := floor(start + L2 - 1)`. -/
def zoomScrollRegion (r : Region) (zAmt sAmt : ℚ) : Option Region :=
  if zAmt ≤ 0 then none
  else
    let L := r.«end» - r.start + 1
    let L2 := zAmt * L
    let delta := sAmt * max L L2 * (if r.reversed then -1 else 1)
    let mid := (r.start + r.«end») / 2
    let s2 : ℚ := ((⌊mid - L2 / 2 + delta + 1⌋ : ℤ) : ℚ)
    let e2 : ℚ := ((⌊s2 + L2 - 1⌋ : ℤ) : ℚ)
    some { r with start := s2, «end» := e2 }

/-- splitRegion's coordinate/weight math from the source: the original
region is mutated into one half and a copy (`makeRegion(r)`, which keeps
all fields of `r`) becomes the other half; `ll = floor(frac * l)` base
pairs go to the visually-left piece, mirrored when `reversed`.  Returns
(mutated original, new sibling). -/
def splitRegionPair (r : Region) (frac : ℚ) : Region × Region :=
  let w := r.width
  let l := r.«end» - r.start + 1
  let ll : ℚ := ((⌊frac * l⌋ : ℤ) : ℚ)
  if r.reversed then
    ({ r with width := frac * w, start := r.«end» - ll + 1 },
     { r with width := (1 - frac) * w, «end» := r.«end» - ll })
  else
    ({ r with width := frac * w, «end» := r.start + ll - 1 },
     { r with width := (1 - frac) * w, start := r.start + ll })

/-- Formula from the spec's words for `zoomScrollRegion` (§4.5), used to
check the implementation against the claimed coordinate math:
`L = end-start+1`, `L2 = zoomFactor*L`,
`delta = scrollFactor * max(L,L2) * (-1 if reversed else +1)`,
`mid = (start+end)/2`, `newStart = floor(mid - L2/2 + delta + 1)`,
`newEnd = floor(newStart + L2 - 1)`. -/
def zoomScrollSpec (r : Region) (zAmt sAmt : ℚ) : Region :=
  let L := r.«end» - r.start + 1
  let L2 := zAmt * L
  let delta := sAmt * max L L2 * (if r.reversed then -1 else 1)
  let mid := (r.start + r.«end») / 2
  let newStart : ℚ := ((⌊mid - L2 / 2 + delta + 1⌋ : ℤ) : ℚ)
  let newEnd : ℚ := ((⌊newStart + L2 - 1⌋ : ℤ) : ℚ)
  { r with start := newStart, «end» := newEnd }

/-- Region `[1000, 2000]` of the spec's worked zoom example. -/
def demoZoomRegion : Region :=
  { genome := "G", chr := "1", start := 1000, «end» := 2000,
    width := 1, deltaX := 0, length := 0, reversed := false }

/-- Reversed region used to instantiate the general zoom statement. -/
def demoZoomRegionRev : Region :=
  { genome := "G", chr := "1", start := 100, «end» := 200,
    width := 1, deltaX := 0, length := 0, reversed := true }

/-- C4: for every region with `start ≤ end`, every `zoomFactor > 0` and every
`scrollFactor`, `zoomScrollRegion` computes exactly the spec's formula
(new `start = floor(mid - L2/2 + delta + 1)`,
new `end = floor(newStart + L2 - 1)`); in particular on `[1000,2000]` with
`zoomFactor = 1/2`, `scrollFactor = 0` it yields `start = 1250`,
`end = 1749`. -/
theorem zoomScrollRegion_math :
    (∀ (r : Region) (z s : ℚ), r.start ≤ r.«end» → 0 < z →
      zoomScrollRegion r z s = some (zoomScrollSpec r z s)) ∧
    zoomScrollRegion demoZoomRegion (1/2) 0 =
      some { demoZoomRegion with start := 1250, «end» := 1749 } := by
  constructor
  · intro r z s _ hz
    rw [zoomScrollRegion, zoomScrollSpec, if_neg (not_le.mpr hz)]
  · rw [zoomScrollRegion]
    norm_num [demoZoomRegion]

/-- Witness for `zoomScrollRegion_math`: the general formula applied at a
concrete reversed region with zoom 2 and scroll 1. -/
theorem zoomScrollRegion_math_witness :
    zoomScrollRegion demoZoomRegionRev 2 1 =
      some (zoomScrollSpec demoZoomRegionRev 2 1) :=
  zoomScrollRegion_math.1 demoZoomRegionRev 2 1 (by norm_num [demoZoomRegionRev])
    (by norm_num)

/-- scaleAdjust from the source: scale factor `f = width / Σ nums`; entries
scaling below `mWidth` are clamped up to `mWidth` and the total clamp
shortfall (`deficit`) is subtracted from the entries strictly above
`mWidth`, each in proportion `n / sum2` to its own scaled size.
(The JS computes `deficit` in the same pass that builds `scaled`;
the two maps below are that one pass split in two.) -/
def scaleAdjust (nums : List ℚ) (width mWidth : ℚ) : List ℚ :=
  let sum := nums.sum
  let f := width / sum
  let scaled := nums.map (fun n => if f * n < mWidth then mWidth else f * n)
  let deficit := (nums.map (fun n => if f * n < mWidth then mWidth - f * n else 0)).sum
  if deficit = 0 then scaled
  else
    let sum2 := (scaled.map (fun n => if mWidth < n then n else 0)).sum
    scaled.map (fun n => n - deficit * (if mWidth < n then n / sum2 else 0))

/-- Write-back loop of `layoutStrip`: `r.width = widths[i]`,
`r.length = end-start+1`, `r.deltaX = dx`, advancing `dx` by
`width + gap` (gap = 2) per region. -/
def assignWidths : List Region → List ℚ → ℚ → List Region
  | r :: rs, w :: ws, dx =>
      { r with width := w, length := r.«end» - r.start + 1, deltaX := dx } ::
        assignWidths rs ws (dx + w + 2)
  | rs, _, _ => rs

/-- layoutStrip from the source: leading offset 12 (end-cap), gap 2 between
regions, `availWidth = width - 12 - 2*(n-1)`, input weights are each
region's stored `width` (or the minimum 25 when falsy, i.e. 0), adjusted
by `scaleAdjust` and written back.  The strip width (`app.zoomWidth` when
the JS argument is omitted) is passed explicitly. -/
def layoutStrip (strip : Strip) (width : ℚ) : Strip :=
  let dx : ℚ := 12
  let gap : ℚ := 2
  let totalGap := dx + gap * ((strip.regions.length : ℚ) - 1)
  let availWidth := width - totalGap
  let minWidth : ℚ := 25
  let widths0 := strip.regions.map (fun r => if r.width = 0 then minWidth else r.width)
  let widths := scaleAdjust widths0 availWidth minWidth
  { strip with regions := assignWidths strip.regions widths dx }

/-- layout from the source, on an explicit strip list and width. -/
def layout (strips : List Strip) (width : ℚ) : List Strip :=
  strips.map (fun s => layoutStrip s width)

/-- Recursive helper `_move` of `moveBorder`, positive (`amt > 0`) branch:
grow `regions[i]` at the expense of `regions[i+1]`; excess beyond the
neighbor's slack (`shove`) is first pushed recursively to the right, the
amount actually absorbed there is added back to what this border may move.
Returns the updated regions and the amount actually moved.  The JS
recursion happens before the in-place writes, so the writes here re-read
the elements from the recursive result. -/
def moveR (regions : List Region) (i : ℕ) (amt mn : ℚ) : List Region × ℚ :=
  if h : i + 1 < regions.length then
    let a := regions[i]
    let b := regions[i + 1]
    let shove := max 0 (amt - (b.width - mn))
    if 0 < shove then
      let res := moveR regions (i + 1) shove mn
      let a2 := res.1.getD i a
      let b2 := res.1.getD (i + 1) b
      let amt2 := amt - (shove - res.2)
      ((res.1.set i { a2 with width := a2.width + amt2 }).set (i + 1)
         { b2 with width := b2.width - amt2, deltaX := b2.deltaX + amt2 }, amt2)
    else
      ((regions.set i { a with width := a.width + amt }).set (i + 1)
         { b with width := b.width - amt, deltaX := b.deltaX + amt }, amt)
  else (regions, 0)
termination_by regions.length - i

/-- Recursive helper `_move` of `moveBorder`, negative (`amt < 0`) branch:
shrink `regions[i]` in favor of `regions[i+1]`; excess beyond `regions[i]`'s
own slack is pushed recursively to the left.  At the left strip boundary the
JS recurses with index -1, where `regions[-1]` is undefined and the call
returns 0 without mutating; that is the `i = 0` case here. -/
def moveL (regions : List Region) (i : ℕ) (amt mn : ℚ) : List Region × ℚ :=
  if h : i + 1 < regions.length then
    let a := regions[i]
    let b := regions[i + 1]
    let shove := min 0 (amt + (a.width - mn))
    if shove < 0 then
      let res := if i = 0 then (regions, (0 : ℚ)) else moveL regions (i - 1) shove mn
      let a2 := res.1.getD i a
      let b2 := res.1.getD (i + 1) b
      let amt2 := amt - (shove - res.2)
      ((res.1.set i { a2 with width := a2.width + amt2 }).set (i + 1)
         { b2 with width := b2.width - amt2, deltaX := b2.deltaX + amt2 }, amt2)
    else
      ((regions.set i { a with width := a.width + amt }).set (i + 1)
         { b with width := b.width - amt, deltaX := b.deltaX + amt }, amt)
  else (regions, 0)
termination_by i

/-- Dispatch of `_move` on the sign of `amt` (the `amt > 0` / `amt < 0` /
else branches of the JS helper). -/
def move (regions : List Region) (i : ℕ) (amt mn : ℚ) : List Region × ℚ :=
  if 0 < amt then moveR regions i amt mn
  else if amt < 0 then moveL regions i amt mn
  else (regions, 0)

/-- moveBorder from the source: locates the region (here: its index `ri` in
its strip's region list) and runs `_move` with the hard minimum width 25. -/
def moveBorder (regions : List Region) (ri : ℕ) (amt : ℚ) : List Region :=
  (move regions ri amt 25).1

/-- Setting an index to the element already there is a no-op. -/
theorem listSetSelf {α} (l : List α) (n : ℕ) (h : n < l.length) :
    l.set n l[n] = l := by
  apply List.ext_getElem
  · simp
  · intro j h1 h2
    rw [List.getElem_set]
    split
    · rename_i hnj; subst hnj; rfl
    · rfl

/-- Sum of a projection after a `set`: replace the old element's
contribution by the new one's. -/
theorem listSumMapSet {α} (f : α → ℚ) (l : List α) (n : ℕ) (x : α)
    (h : n < l.length) :
    ((l.set n x).map f).sum = (l.map f).sum - f l[n] + f x := by
  induction l generalizing n with
  | nil => simp at h
  | cons y ys ih =>
    cases n with
    | zero => simp [List.set]; ring
    | succ m =>
      have hm : m < ys.length := by simpa using h
      simp only [List.set, List.map_cons, List.sum_cons, List.getElem_cons_succ]
      rw [ih m hm]
      ring

/-- `moveR` never adds or removes regions. -/
theorem moveR_len (regions : List Region) (i : ℕ) (amt mn : ℚ) :
    (moveR regions i amt mn).1.length = regions.length := by
  induction i, amt, mn using moveR.induct regions with
  | case1 i amt mn h b shove hs ih =>
    rw [moveR]
    simp only [dif_pos h]
    rw [if_pos hs]
    simp [ih]
  | case2 i amt mn h b shove hs =>
    rw [moveR]
    simp only [dif_pos h]
    rw [if_neg hs]
    simp
  | case3 i amt mn h =>
    rw [moveR]
    simp [dif_neg h]

/-- Sum of a rational list after a `set`. -/
theorem listSumSetQ (l : List ℚ) (n : ℕ) (x : ℚ) (h : n < l.length) :
    (l.set n x).sum = l.sum - l[n] + x := by
  induction l generalizing n with
  | nil => simp at h
  | cons y ys ih =>
    cases n with
    | zero => simp [List.set]; ring
    | succ m =>
      have hm : m < ys.length := by simpa using h
      simp only [List.set, List.sum_cons, List.getElem_cons_succ]
      rw [ih m hm]
      ring

/-- Sum of a rational list after updating two distinct indices. -/
theorem listSumSetSetQ (l : List ℚ) (i j : ℕ) (x y : ℚ) (hi : i < l.length)
    (hj : j < l.length) (hij : i ≠ j) :
    ((l.set i x).set j y).sum = l.sum - l[i] - l[j] + x + y := by
  rw [listSumSetQ (l.set i x) j y (by simpa using hj)]
  rw [listSumSetQ l i x hi]
  simp only [List.getElem_set, if_neg hij]
  ring

/-- Double `set` with unchanged values under a projection is invisible to
that projection's map. -/
theorem listSetEqSelf {α} (l : List α) (n : ℕ) (x : α) (h : l[n]? = some x) :
    l.set n x = l := by
  induction l generalizing n with
  | nil => simp [List.set]
  | cons y ys ih =>
    cases n with
    | zero =>
      simp only [List.getElem?_cons_zero, Option.some.injEq] at h
      simp [List.set, h]
    | succ m =>
      simp only [List.getElem?_cons_succ] at h
      simp only [List.set]
      rw [ih m h]

theorem listMapSetSetProj {α β} (f : α → β) (l : List α) (i j : ℕ) (x y : α)
    (hi : i < l.length) (hj : j < l.length)
    (hx : f x = f l[i]) (hy : f y = f l[j]) :
    ((l.set i x).set j y).map f = l.map f := by
  rw [List.map_set, List.map_set, hx, hy]
  rw [listSetEqSelf (l.map f) i (f l[i])
    (by rw [List.getElem?_map, List.getElem?_eq_getElem hi]; rfl)]
  rw [listSetEqSelf (l.map f) j (f l[j])
    (by rw [List.getElem?_map, List.getElem?_eq_getElem hj]; rfl)]

/-- `moveR` conserves the total width of the strip: every step transfers
the same amount it adds to one region away from its neighbor. -/
theorem moveR_sum (regions : List Region) (i : ℕ) (amt mn : ℚ) :
    ((moveR regions i amt mn).1.map Region.width).sum =
      (regions.map Region.width).sum := by
  induction i, amt, mn using moveR.induct regions with
  | case1 i amt mn h b shove hs ih =>
    rw [moveR]
    simp only [dif_pos h]
    rw [if_pos hs]
    have hlen := moveR_len regions (i + 1) shove mn
    rcases hE : moveR regions (i + 1) shove mn with ⟨rs1, mv⟩
    rw [hE] at ih hlen
    simp only [hE]
    have hi : i < rs1.length := by simp at hlen ⊢; omega
    have hi1 : i + 1 < rs1.length := by simp at hlen ⊢; omega
    rw [List.getD_eq_getElem rs1 _ hi, List.getD_eq_getElem rs1 _ hi1]
    rw [List.map_set, List.map_set]
    rw [listSumSetSetQ _ i (i + 1) _ _ (by simpa using hi) (by simpa using hi1)
      (by omega)]
    simp only [List.getElem_map]
    rw [ih]
    ring
  | case2 i amt mn h b shove hs =>
    rw [moveR]
    simp only [dif_pos h]
    rw [if_neg hs]
    have hi : i < regions.length := by omega
    rw [List.map_set, List.map_set]
    rw [listSumSetSetQ _ i (i + 1) _ _ (by simpa using hi) (by simpa using h)
      (by omega)]
    simp only [List.getElem_map]
    ring
  | case3 i amt mn h =>
    rw [moveR]
    simp [dif_neg h]

/-- `moveR` never touches a region's chromosome or coordinates. -/
theorem moveR_coords (regions : List Region) (i : ℕ) (amt mn : ℚ) :
    (moveR regions i amt mn).1.map coordsOf = regions.map coordsOf := by
  induction i, amt, mn using moveR.induct regions with
  | case1 i amt mn h b shove hs ih =>
    rw [moveR]
    simp only [dif_pos h]
    rw [if_pos hs]
    have hlen := moveR_len regions (i + 1) shove mn
    rcases hE : moveR regions (i + 1) shove mn with ⟨rs1, mv⟩
    rw [hE] at ih hlen
    simp only [hE]
    have hi : i < rs1.length := by simp at hlen ⊢; omega
    have hi1 : i + 1 < rs1.length := by simp at hlen ⊢; omega
    rw [List.getD_eq_getElem rs1 _ hi, List.getD_eq_getElem rs1 _ hi1]
    rw [listMapSetSetProj coordsOf rs1 i (i + 1) _ _ hi hi1
      (by simp [coordsOf]) (by simp [coordsOf])]
    exact ih
  | case2 i amt mn h b shove hs =>
    rw [moveR]
    simp only [dif_pos h]
    rw [if_neg hs]
    have hi : i < regions.length := by omega
    rw [listMapSetSetProj coordsOf regions i (i + 1) _ _ hi h
      (by simp [coordsOf]) (by simp [coordsOf])]
  | case3 i amt mn h =>
    rw [moveR]
    simp [dif_neg h]

set_option maxHeartbeats 2000000 in
/-- `moveL` never adds or removes regions. -/
theorem moveL_len (regions : List Region) (i : ℕ) (amt mn : ℚ) :
    (moveL regions i amt mn).1.length = regions.length := by
  induction i, amt, mn using moveL.induct regions with
  | case1 i amt mn h a shove hs ih =>
    rw [moveL]
    simp only [dif_pos h]
    rw [if_pos hs]
    by_cases hi0 : i = 0
    · rw [if_pos hi0]
      simp only [List.length_set]
    · rw [if_neg hi0]
      have ih2 := ih hi0
      simp only [List.length_set]
      exact ih2
  | case2 i amt mn h a shove hs =>
    rw [moveL]
    simp only [dif_pos h]
    rw [if_neg hs]
    simp only [List.length_set]
  | case3 i amt mn h =>
    rw [moveL]
    simp [dif_neg h]

/-- `moveL` conserves the total width of the strip. -/
theorem moveL_sum (regions : List Region) (i : ℕ) (amt mn : ℚ) :
    ((moveL regions i amt mn).1.map Region.width).sum =
      (regions.map Region.width).sum := by
  induction i, amt, mn using moveL.induct regions with
  | case1 i amt mn h a shove hs ih =>
    rw [moveL]
    simp only [dif_pos h]
    rw [if_pos hs]
    by_cases hi0 : i = 0
    · rw [if_pos hi0]
      have hi : i < regions.length := by omega
      dsimp only
      rw [List.getD_eq_getElem regions _ hi, List.getD_eq_getElem regions _ h]
      rw [List.map_set, List.map_set]
      rw [listSumSetSetQ _ i (i + 1) _ _ (by simpa using hi) (by simpa using h)
        (by omega)]
      simp only [List.getElem_map]
      ring
    · rw [if_neg hi0]
      have hlen := moveL_len regions (i - 1) shove mn
      have ih2 := ih hi0
      rcases hE : moveL regions (i - 1) shove mn with ⟨rs1, mv⟩
      rw [hE] at hlen ih2
      dsimp only at hlen ih2 ⊢
      have hi : i < rs1.length := by omega
      have hi1 : i + 1 < rs1.length := by omega
      rw [List.getD_eq_getElem rs1 _ hi, List.getD_eq_getElem rs1 _ hi1]
      rw [List.map_set, List.map_set]
      rw [listSumSetSetQ _ i (i + 1) _ _ (by simpa using hi) (by simpa using hi1)
        (by omega)]
      simp only [List.getElem_map]
      rw [ih2]
      ring
  | case2 i amt mn h a shove hs =>
    rw [moveL]
    simp only [dif_pos h]
    rw [if_neg hs]
    have hi : i < regions.length := by omega
    rw [List.map_set, List.map_set]
    rw [listSumSetSetQ _ i (i + 1) _ _ (by simpa using hi) (by simpa using h)
      (by omega)]
    simp only [List.getElem_map]
    ring
  | case3 i amt mn h =>
    rw [moveL]
    simp [dif_neg h]

/-- `moveL` never touches a region's chromosome or coordinates. -/
theorem moveL_coords (regions : List Region) (i : ℕ) (amt mn : ℚ) :
    (moveL regions i amt mn).1.map coordsOf = regions.map coordsOf := by
  induction i, amt, mn using moveL.induct regions with
  | case1 i amt mn h a shove hs ih =>
    rw [moveL]
    simp only [dif_pos h]
    rw [if_pos hs]
    by_cases hi0 : i = 0
    · rw [if_pos hi0]
      have hi : i < regions.length := by omega
      dsimp only
      rw [List.getD_eq_getElem regions _ hi, List.getD_eq_getElem regions _ h]
      rw [listMapSetSetProj coordsOf regions i (i + 1) _ _ hi h
        (by simp [coordsOf]) (by simp [coordsOf])]
    · rw [if_neg hi0]
      have hlen := moveL_len regions (i - 1) shove mn
      have ih2 := ih hi0
      rcases hE : moveL regions (i - 1) shove mn with ⟨rs1, mv⟩
      rw [hE] at hlen ih2
      dsimp only at hlen ih2 ⊢
      have hi : i < rs1.length := by omega
      have hi1 : i + 1 < rs1.length := by omega
      rw [List.getD_eq_getElem rs1 _ hi, List.getD_eq_getElem rs1 _ hi1]
      rw [listMapSetSetProj coordsOf rs1 i (i + 1) _ _ hi hi1
        (by simp [coordsOf]) (by simp [coordsOf])]
      exact ih2
  | case2 i amt mn h a shove hs =>
    rw [moveL]
    simp only [dif_pos h]
    rw [if_neg hs]
    have hi : i < regions.length := by omega
    rw [listMapSetSetProj coordsOf regions i (i + 1) _ _ hi h
      (by simp [coordsOf]) (by simp [coordsOf])]
  | case3 i amt mn h =>
    rw [moveL]
    simp [dif_neg h]

/-- C10: `moveBorder` conserves the total width of the strip's regions, for
every strip, border index and amount (positive or negative), and never
modifies any region's chromosome, start, or end. -/
theorem moveBorder_conserves (regions : List Region) (ri : ℕ) (amt : ℚ) :
    ((moveBorder regions ri amt).map Region.width).sum =
      (regions.map Region.width).sum ∧
    (moveBorder regions ri amt).map coordsOf = regions.map coordsOf := by
  rw [moveBorder, move]
  split
  · exact ⟨moveR_sum regions ri amt 25, moveR_coords regions ri amt 25⟩
  · split
    · exact ⟨moveL_sum regions ri amt 25, moveL_coords regions ri amt 25⟩
    · exact ⟨rfl, rfl⟩

/-- Three-region strip of widths [100, 30, 100] from the spec's
moveBorder example. -/
def demoMoveRegions : List Region :=
  [{ genome := "G", chr := "1", start := 1, «end» := 100,
     width := 100, deltaX := 12, length := 0, reversed := false },
   { genome := "G", chr := "1", start := 101, «end» := 200,
     width := 30, deltaX := 114, length := 0, reversed := false },
   { genome := "G", chr := "1", start := 201, «end» := 300,
     width := 100, deltaX := 146, length := 0, reversed := false }]

/-- C7: on widths [100, 30, 100] with minimum 25, moving the first border by
+20 exceeds the middle region's slack of 5; the excess 15 cascades to the
third region, leaving region 2 at exactly the minimum 25 and region 3
reduced by the residual 15: final widths [120, 25, 85]. -/
theorem moveBorder_cascade :
    (moveBorder demoMoveRegions 0 20).map Region.width = [120, 25, 85] := by
  rw [moveBorder, move]
  norm_num
  simp [moveR, demoMoveRegions]
  norm_num

/-- Translated synteny block (`{start, end, index}` object returned by the
external translator and consumed by `combineRegions`). -/
structure TBlock where
  start : ℚ
  «end» : ℚ
  index : ℤ
  deriving DecidableEq

/-- Stable insertion of a block into an index-sorted list: an earlier
element stays before later elements with equal index, as JS stable
`Array.sort` with comparator `a.index - b.index` guarantees. -/
def insertB (x : TBlock) : List TBlock → List TBlock
  | [] => [x]
  | y :: ys => if x.index ≤ y.index then x :: y :: ys else y :: insertB x ys

/-- Stable sort by `index` (`regions.sort((a, b) => a.index - b.index)`). -/
def sortBlocks (l : List TBlock) : List TBlock := l.foldr insertB []

/-- One step of the `reduce` in `combineRegions`: drop a duplicate index,
extend the previous block (updating its `end` and `index`) on a
consecutive index, else start a new group. -/
def combineStep (nrs : List TBlock) (r : TBlock) : List TBlock :=
  match nrs.getLast? with
  | some prev =>
    if prev.index = r.index then nrs
    else if prev.index + 1 = r.index then
      nrs.dropLast ++ [{ prev with «end» := r.«end», index := r.index }]
    else nrs ++ [r]
  | none => nrs ++ [r]

/-- combineRegions from the source: sort by index, then fold left-to-right
coalescing duplicate and consecutive indices. -/
def combineRegions (regions : List TBlock) : List TBlock :=
  (sortBlocks regions).foldl combineStep []

/-- Synteny blocks with indices 0, 1, 3 and a second index-0 duplicate. -/
def blockA : TBlock := { start := 10, «end» := 20, index := 0 }

/-- Block with index 1, consecutive to `blockA`. -/
def blockB : TBlock := { start := 30, «end» := 40, index := 1 }

/-- Block with index 3, not adjacent to the others. -/
def blockC : TBlock := { start := 100, «end» := 110, index := 3 }

/-- Duplicate of index 0 at different coordinates. -/
def blockDup : TBlock := { start := 50, «end» := 60, index := 0 }

/-- C8: `combineRegions` sorts by index and folds left-to-right; blocks with
indices [0,1,3] (given out of order) yield two groups — indices 0–1 merged
into one block whose end is block 1's end, and index 3 kept separate — and
a block whose index equals the previous one's is dropped. -/
theorem combineRegions_coalesce :
    combineRegions [blockB, blockC, blockA] =
      [{ start := 10, «end» := 40, index := 1 }, blockC] ∧
    combineRegions [blockA, blockDup] = [blockA] := by
  refine ⟨by decide, by decide⟩

/-- Feature: one gene-like entry of `getAllFeaturesNow`'s ordered list
(only the fields `guessLandmarkRegion` reads). -/
structure Feature where
  ID : String
  chr : String
  start : ℚ
  «end» : ℚ
  deriving DecidableEq

/-- The `findNeighborGenolog` walk of `guessLandmarkRegion`: scan outward
over the (already direction-ordered) neighbor list, skipping entries
rejected by `keep` (the overlap test) and entries with no counterpart
(`genolog` is the external `dm.getGenolog(·, genome)`), returning the
first counterpart found. -/
def scanForGenolog (keep : Feature → Bool) (genolog : Feature → Option Feature) :
    List Feature → Option Feature
  | [] => none
  | n :: rest =>
    if keep n then
      match genolog n with
      | some g => some g
      | none => scanForGenolog keep genolog rest
    else scanForGenolog keep genolog rest

/-- Region construction of `guessLandmarkRegion` once the two neighbor
counterparts `ng1`, `ng2` are fixed: one region centered on the midpoint
of their combined extent when they share a chromosome (built via
`makeRegion`, hence width 1), else two regions anchored at each
counterpart's start (raw objects in the JS, hence no width: modelled as
the falsy 0). -/
def guessPair (g1 g2 : Feature) (len : ℚ) (gname : String) : List Region :=
  if g1.chr = g2.chr then
    let mp := (min g1.start g2.start + max g1.«end» g2.«end») / 2
    let s : ℚ := ((⌊mp - len / 2⌋ : ℤ) : ℚ)
    [{ genome := gname, chr := g1.chr, start := s, «end» := s + len - 1,
       width := 1, deltaX := 0, length := 0, reversed := false }]
  else
    let s1 : ℚ := ((⌊g1.start - len / 2⌋ : ℤ) : ℚ)
    let s2 : ℚ := ((⌊g2.start - len / 2⌋ : ℤ) : ℚ)
    [{ genome := gname, chr := g1.chr, start := s1, «end» := s1 + len - 1,
       width := 0, deltaX := 0, length := 0, reversed := false },
     { genome := gname, chr := g2.chr, start := s2, «end» := s2 + len - 1,
       width := 0, deltaX := 0, length := 0, reversed := false }]

/-- guessLandmarkRegion from the source, with the external data manager
abstracted into the `genolog` lookup and the neighbor list passed in
(`getAllFeaturesNow` order); `lmf` is assumed to occur in `neighbors`, as
guaranteed by the caller (it is taken from that same list).  Walk left
skipping neighbors overlapping the landmark (`n.end > lmf.start`), walk
right skipping `n.start < lmf.end`; `null` result (no counterpart on
either side) is `none`; one-sided counterparts are used for both
directions. -/
def guessLandmarkRegion (genolog : Feature → Option Feature)
    (neighbors : List Feature) (lmf : Feature) (len : ℚ) (gname : String) :
    Option (List Region) :=
  let lmi := neighbors.indexOf lmf
  let ng1 := scanForGenolog (fun n => n.«end» ≤ lmf.start) genolog
    ((neighbors.take lmi).reverse)
  let ng2 := scanForGenolog (fun n => lmf.«end» ≤ n.start) genolog
    (neighbors.drop (lmi + 1))
  match ng1, ng2 with
  | none, none => none
  | some g1, none => some (guessPair g1 g1 len gname)
  | none, some g2 => some (guessPair g2 g2 len gname)
  | some g1, some g2 => some (guessPair g1 g2 len gname)

/-- Landmark feature of the guess scenarios, spanning [1000, 1200]. -/
def lmDemo : Feature := { ID := "LM", chr := "c1", start := 1000, «end» := 1200 }

/-- Left neighbor (non-overlapping, no counterpart in the scenarios). -/
def nbL : Feature := { ID := "N1", chr := "c1", start := 500, «end» := 900 }

/-- Right neighbor overlapping the landmark: must be skipped by the walk. -/
def nbOv : Feature := { ID := "NOv", chr := "c1", start := 1100, «end» := 1300 }

/-- Second right neighbor, non-overlapping. -/
def nbR : Feature := { ID := "N2", chr := "c1", start := 1250, «end» := 1400 }

/-- Neighbor list in genomic order with the landmark at index 1. -/
def demoNeighbors : List Feature := [nbL, lmDemo, nbOv, nbR]

/-- Counterpart of `nbR` at position 5000 on chromosome "2". -/
def g2Demo : Feature := { ID := "G2", chr := "2", start := 5000, «end» := 5000 }

/-- Counterpart of `nbL` on chromosome "5" for the two-chromosome branch. -/
def gADemo : Feature := { ID := "GA", chr := "5", start := 9000, «end» := 9100 }

/-- Counterpart of `nbR` on chromosome "7" for the two-chromosome branch. -/
def gBDemo : Feature := { ID := "GB", chr := "7", start := 5000, «end» := 5100 }

/-- Genolog lookup where only the right neighbor has a counterpart. -/
def genologOneSide (f : Feature) : Option Feature :=
  if f.ID = "N2" then some g2Demo else none

/-- Genolog lookup where the neighbors map to different chromosomes. -/
def genologTwoChr (f : Feature) : Option Feature :=
  if f.ID = "N1" then some gADemo else if f.ID = "N2" then some gBDemo else none

/-- Genolog lookup with no counterparts at all. -/
def genologNone (_ : Feature) : Option Feature := none

/-- C6: `guessLandmarkRegion` fallback branches.  With no left counterpart
and the right neighbor mapping to chromosome "2" at start 5000 and
`length = 1000`, the single counterpart serves both directions and the
result is the one region `{chr:"2", start:4500, end:5499}` of exactly the
requested length.  When the two counterparts are on chromosomes "5"
(start 9000) and "7" (start 5000), the result is two regions of length
1000 anchored at each counterpart's start.  When neither side has a
counterpart the result is empty (`none`), not an error. -/
theorem guessLandmarkRegion_cases :
    (guessLandmarkRegion genologOneSide demoNeighbors lmDemo 1000 "g").map
        (fun rs => rs.map coordsOf) = some [("2", 4500, 5499)] ∧
    (guessLandmarkRegion genologTwoChr demoNeighbors lmDemo 1000 "g").map
        (fun rs => rs.map coordsOf) =
      some [("5", 8500, 9499), ("7", 4500, 5499)] ∧
    guessLandmarkRegion genologNone demoNeighbors lmDemo 1000 "g" = none := by
  refine ⟨?_, ?_, ?_⟩
  · simp [guessLandmarkRegion, scanForGenolog, guessPair, demoNeighbors, lmDemo,
      nbL, nbOv, nbR, g2Demo, genologOneSide, coordsOf]
    norm_num
    decide
  · simp [guessLandmarkRegion, scanForGenolog, guessPair, demoNeighbors, lmDemo,
      nbL, nbOv, nbR, gADemo, gBDemo, genologTwoChr, coordsOf]
    norm_num
    decide
  · simp [guessLandmarkRegion, scanForGenolog, demoNeighbors, lmDemo,
      nbL, nbOv, nbR, genologNone]

/-- Outcome of `addStrip`'s initial-region choice: the three branches of
the source (landmark window computation, synteny mapping of the reference
region, default first-chromosome window) plus the explicit-region outcome
that only the spec's policy has. -/
inductive AddStripInit where
  | landmarkRegions (lc : LCoords) (g : Genome)
  | mappedRegions (ref : Region) (g : Genome)
  | explicitRegion (r : Region)
  | defaultRegion (r : Region)
  deriving DecidableEq

/-- Shared tail of `addStrip`'s branch selection: reference mapping when a
reference region exists, else the default region on the genome's first
chromosome with window `[1, min(10_000_000, chromosomeLength)]` (`none`
models the JS crash on a genome with no chromosomes). -/
def addStripNoLandmark (rRegion : Option Region) (g : Genome) : Option AddStripInit :=
  match rRegion with
  | some rr => some (.mappedRegions rr g)
  | none =>
    match g.chromosomes.head? with
    | some chr => some (.defaultRegion
        { genome := g.name, chr := chr.name, start := 1,
          «end» := min 10000000 chr.length, width := 1, deltaX := 0,
          length := 0, reversed := false })
    | none => none

set_option linter.unusedVariables false in
/-- addStrip's initial-region selection from the source (`addStrip(g, r)`):
landmark window when `lcoords.landmark` is set, else reference mapping
when `rRegion` is set, else the default window.  The explicit region
parameter `r` is never read anywhere in the JS function body, which is why
it is unused here too. -/
def addStripInit (lcoords : Option LCoords) (rRegion : Option Region)
    (g : Genome) (r : Option Region) : Option AddStripInit :=
  match lcoords with
  | some lc =>
    if lc.landmark ≠ "" then some (.landmarkRegions lc g)
    else addStripNoLandmark rRegion g
  | none => addStripNoLandmark rRegion g

/-- Initial-region policy as written in the spec (§4.2) and in addStrip's
own doc comment: priority (1) landmark, (2) reference, (3) explicit
region argument used as-is, (4) default window. -/
def addStripInitSpec (lcoords : Option LCoords) (rRegion : Option Region)
    (g : Genome) (r : Option Region) : Option AddStripInit :=
  match lcoords with
  | some lc =>
    if lc.landmark ≠ "" then some (.landmarkRegions lc g)
    else
      match rRegion with
      | some rr => some (.mappedRegions rr g)
      | none =>
        match r with
        | some rr => some (.explicitRegion rr)
        | none => addStripNoLandmark none g
  | none =>
    match rRegion with
    | some rr => some (.mappedRegions rr g)
    | none =>
      match r with
      | some rr => some (.explicitRegion rr)
      | none => addStripNoLandmark none g

/-- One-chromosome genome ("1", length 200000) for the addStrip scenario. -/
def demoGenome : Genome :=
  { name := "G", chromosomes := [{ name := "1", length := 200000 }] }

/-- Explicit region argument passed to addStrip in the scenario. -/
def demoArgRegion : Region :=
  { genome := "G", chr := "5", start := 100, «end» := 200,
    width := 1, deltaX := 0, length := 0, reversed := false }

/-- Default window the code actually produces for `demoGenome`:
first chromosome, `[1, min(10_000_000, 200000)]`. -/
def demoDefaultRegion : Region :=
  { genome := "G", chr := "1", start := 1, «end» := 200000,
    width := 1, deltaX := 0, length := 0, reversed := false }

/-- C5: with no landmark and no reference active, `addStrip(g, r)` with an
explicit region argument ignores `r` entirely (the JS never reads the
parameter) and returns the default first-chromosome window — contradicting
priority (3) of the claimed policy (`addStripInitSpec`), which would use
`r` as-is.  The last conjunct shows the region argument has no influence
at all on the code's result. -/
theorem addStrip_ignores_region_arg :
    addStripInit none none demoGenome (some demoArgRegion) =
      some (.defaultRegion demoDefaultRegion) ∧
    addStripInitSpec none none demoGenome (some demoArgRegion) =
      some (.explicitRegion demoArgRegion) ∧
    (∀ rA rB : Option Region,
      addStripInit none none demoGenome rA = addStripInit none none demoGenome rB) := by
  refine ⟨by decide, by decide, fun rA rB => rfl⟩

/-- The three mode-bearing fields of the app state: `scrollLock` (Locked
mode), `rRegion` (Reference mode), `lcoords` (Landmark mode). -/
structure ModeState where
  scrollLock : Bool
  rRegion : Option Region
  lcoords : Option LCoords
  deriving DecidableEq

/-- Locked mode is active when `scrollLock` is true. -/
def lockedActive (s : ModeState) : Bool := s.scrollLock

/-- Reference mode is active when `rRegion` is non-null. -/
def referenceActive (s : ModeState) : Bool := s.rRegion.isSome

/-- Landmark mode is active when `lcoords` is non-null with a truthy
`landmark` (the JS check `lcoords && lcoords.landmark`). -/
def landmarkActive (s : ModeState) : Bool :=
  match s.lcoords with
  | some lc => lc.landmark != ""
  | none => false

/-- Mode-flag effect of `computeMappedRegions` (source lines: sets
`rRegion = r`, `scrollLock = false`, `lcoords = null`). -/
def computeMappedRegionsMode (s : ModeState) (r : Region) : ModeState :=
  { s with rRegion := some r, scrollLock := false, lcoords := none }

/-- Mode-flag effect of `alignOnLandmark` (source lines: sets
`scrollLock = true`, `lcoords = lcoords`, `rRegion = null`). -/
def alignOnLandmarkMode (s : ModeState) (lc : LCoords) : ModeState :=
  { s with scrollLock := true, lcoords := some lc, rRegion := none }

/-- Landmark spec used in the mode scenarios. -/
def demoLC : LCoords :=
  { landmark := "Pax6", lgenome := "G", anchor := none, delta := 0, length := 1000 }

/-- State with no mode active. -/
def freeState : ModeState := { scrollLock := false, rRegion := none, lcoords := none }

/-- C1 counterexample: `alignOnLandmark` does not clear Locked mode — it
sets `scrollLock = true`, so immediately after entering Landmark mode both
Locked and Landmark are active, refuting "at most one of the three modes
is active" and "entering one mode clears the other two". -/
theorem alignOnLandmark_enables_scrollLock :
    lockedActive (alignOnLandmarkMode freeState demoLC) = true ∧
    landmarkActive (alignOnLandmarkMode freeState demoLC) = true := by decide

/-- C1 (amended): `computeMappedRegions` does clear both other modes when
entering Reference mode; `alignOnLandmark` clears Reference but *enables*
scroll-lock, so Landmark mode always runs together with Locked mode; the
exclusivity that does hold after either operation is between Reference and
Landmark only. -/
theorem mode_exclusivity_amended :
    (∀ (s : ModeState) (r : Region),
      referenceActive (computeMappedRegionsMode s r) = true ∧
      lockedActive (computeMappedRegionsMode s r) = false ∧
      landmarkActive (computeMappedRegionsMode s r) = false) ∧
    (∀ (s : ModeState) (lc : LCoords),
      referenceActive (alignOnLandmarkMode s lc) = false ∧
      lockedActive (alignOnLandmarkMode s lc) = true ∧
      (lc.landmark ≠ "" → landmarkActive (alignOnLandmarkMode s lc) = true)) ∧
    (∀ (s : ModeState) (r : Region) (lc : LCoords),
      ¬(referenceActive (computeMappedRegionsMode s r) = true ∧
        landmarkActive (computeMappedRegionsMode s r) = true) ∧
      ¬(referenceActive (alignOnLandmarkMode s lc) = true ∧
        landmarkActive (alignOnLandmarkMode s lc) = true)) := by
  refine ⟨fun s r => ⟨rfl, rfl, rfl⟩, fun s lc => ⟨rfl, rfl, fun h => ?_⟩,
    fun s r lc => ⟨fun h => by simpa [landmarkActive, computeMappedRegionsMode] using h.2,
      fun h => by simpa [referenceActive, alignOnLandmarkMode] using h.1⟩⟩
  simp [landmarkActive, alignOnLandmarkMode]
  exact h

/-- Witness for `mode_exclusivity_amended` at the concrete free state and
landmark spec "Pax6". -/
theorem mode_exclusivity_amended_witness :
    landmarkActive (alignOnLandmarkMode freeState demoLC) = true :=
  (mode_exclusivity_amended.2.1 freeState demoLC).2.2 (by decide)

/-- Sum of a pointwise difference of maps. -/
theorem listSumMapSub {α} (l : List α) (g h : α → ℚ) :
    (l.map (fun x => g x - h x)).sum = (l.map g).sum - (l.map h).sum := by
  induction l with
  | nil => simp
  | cons y ys ih => simp [ih]; ring

/-- Behaviour of `scaleAdjust` on positive inputs when the available width
is at least `mWidth` per entry: the outputs sum exactly to the available
width and are all positive, including when clamping and the single-pass
deficit redistribution apply. -/
theorem scaleAdjust_spec (nums : List ℚ) (w m : ℚ) (hne : nums ≠ [])
    (hpos : ∀ x ∈ nums, 0 < x) (hm : 0 < m)
    (hw : m * nums.length ≤ w) :
    (scaleAdjust nums w m).sum = w ∧ ∀ y ∈ scaleAdjust nums w m, 0 < y := by
  have hS : 0 < nums.sum := List.sum_pos nums hpos hne
  have hn1 : (1 : ℚ) ≤ nums.length := by
    have h0 : nums.length ≠ 0 := by
      simpa [List.length_eq_zero] using hne
    exact_mod_cast Nat.one_le_iff_ne_zero.mpr h0
  have hw0 : 0 < w := lt_of_lt_of_le (by nlinarith) hw
  rw [scaleAdjust]
  simp only
  set f := w / nums.sum with hf_def
  have hf : 0 < f := div_pos hw0 hS
  have hfS : (nums.map (fun x => f * x)).sum = w := by
    rw [List.sum_map_mul_left nums (fun x => x) f]
    simp only [List.map_id']
    rw [hf_def, div_mul_cancel₀ w (ne_of_gt hS)]
  have hclamp : (fun n => if f * n < m then m else f * n)
      = (fun n => f * n + (if f * n < m then m - f * n else 0)) := by
    funext n
    split
    · ring
    · ring
  have hscaled_sum :
      (nums.map (fun n => if f * n < m then m else f * n)).sum
        = w + (nums.map (fun n => if f * n < m then m - f * n else 0)).sum := by
    rw [hclamp, List.sum_map_add, hfS]
  have hdef_nonneg :
      0 ≤ (nums.map (fun n => if f * n < m then m - f * n else 0)).sum := by
    apply List.sum_nonneg
    intro y hy
    obtain ⟨x, hx, rfl⟩ := List.mem_map.mp hy
    split
    · linarith
    · exact le_refl 0
  have hsum2_eq :
      ((nums.map (fun n => if f * n < m then m else f * n)).map
          (fun n => if m < n then n else 0)).sum
        = (nums.map (fun n => if m < f * n then f * n else 0)).sum := by
    rw [List.map_map]
    congr 1
    apply List.map_congr_left
    intro x hx
    by_cases hlt : f * x < m
    · simp [Function.comp, hlt, if_neg (lt_irrefl m), if_neg (not_lt.mpr (le_of_lt hlt))]
    · simp [Function.comp, hlt]
  have hkey :
      (nums.map (fun n => if m < f * n then f * n else 0)).sum
        - (nums.map (fun n => if f * n < m then m - f * n else 0)).sum
      = w - (nums.map (fun n => if f * n ≤ m then m else 0)).sum := by
    rw [← listSumMapSub, ← hfS, ← listSumMapSub]
    congr 1
    apply List.map_congr_left
    intro x hx
    rcases lt_trichotomy (f * x) m with hlt | heq | hgt
    · rw [if_neg (not_lt.mpr hlt.le), if_pos hlt, if_pos hlt.le]
      ring
    · rw [if_neg (not_lt.mpr heq.ge), if_neg (not_lt.mpr heq.le), if_pos heq.le, heq]
      ring
    · rw [if_pos hgt, if_neg (not_lt.mpr hgt.le), if_neg (not_le.mpr hgt)]
  split
  · rename_i hdef0
    constructor
    · rw [hscaled_sum, hdef0, add_zero]
    · intro y hy
      obtain ⟨x, hx, rfl⟩ := List.mem_map.mp hy
      split
      · exact hm
      · rename_i hnlt
        exact lt_of_lt_of_le hm (not_lt.mp hnlt)
  · rename_i hdef_ne
    have hdef_pos : 0 < (nums.map (fun n => if f * n < m then m - f * n else 0)).sum :=
      lt_of_le_of_ne hdef_nonneg (Ne.symm hdef_ne)
    have hex : ∃ x ∈ nums, m < f * x := by
      by_contra hall
      push_neg at hall
      have hz : (nums.map (fun n => if m < f * n then f * n else 0)).sum = 0 := by
        rw [List.map_congr_left (fun x hx => if_neg (not_lt.mpr (hall x hx)))]
        simp
      have hT : (nums.map (fun n => if f * n ≤ m then m else 0)).sum
          = m * nums.length := by
        rw [List.map_congr_left (fun x hx => if_pos (hall x hx))]
        simp [List.map_const', mul_comm]
      rw [hz, hT] at hkey
      linarith
    obtain ⟨x0, hx0, hx0gt⟩ := hex
    have hpospart_nonneg :
        ∀ y ∈ nums.map (fun n => if m < f * n then f * n else 0), 0 ≤ y := by
      intro y hy
      obtain ⟨x, hx, rfl⟩ := List.mem_map.mp hy
      split
      · rename_i hgt; exact le_of_lt (lt_trans hm hgt)
      · exact le_refl 0
    have hsum2_ge : f * x0 ≤ (nums.map (fun n => if m < f * n then f * n else 0)).sum := by
      have hmem : (if m < f * x0 then f * x0 else 0)
          ∈ nums.map (fun n => if m < f * n then f * n else 0) :=
        List.mem_map_of_mem _ hx0
      rw [if_pos hx0gt] at hmem
      exact List.single_le_sum hpospart_nonneg _ hmem
    have hsum2_pos : 0 < (nums.map (fun n => if m < f * n then f * n else 0)).sum :=
      lt_of_lt_of_le (lt_trans hm hx0gt) hsum2_ge
    have hT_le : (nums.map (fun n => if f * n ≤ m then m else 0)).sum
        ≤ m * ((nums.length : ℚ) - 1) := by
      have hperm : nums.Perm (x0 :: nums.erase x0) := List.perm_cons_erase hx0
      have hmap := (hperm.map (fun n => if f * n ≤ m then m else 0)).sum_eq
      rw [hmap]
      simp only [List.map_cons, List.sum_cons]
      rw [if_neg (not_le.mpr hx0gt)]
      have hbound : (((nums.erase x0).map (fun n => if f * n ≤ m then m else 0))).sum
          ≤ ((nums.erase x0).length : ℚ) * m := by
        have := List.sum_le_card_nsmul
          ((nums.erase x0).map (fun n => if f * n ≤ m then m else 0)) m ?_
        · simpa [nsmul_eq_mul] using this
        · intro y hy
          obtain ⟨x, hx, rfl⟩ := List.mem_map.mp hy
          split
          · exact le_refl m
          · exact le_of_lt hm
      have hlen : ((nums.erase x0).length : ℚ) = (nums.length : ℚ) - 1 := by
        rw [List.length_erase_of_mem hx0]
        have h0 : 1 ≤ nums.length := by
          by_contra hc
          interval_cases h : nums.length
          · simp [List.length_eq_zero] at h
            exact hne h
        push_cast [Nat.cast_sub h0]
        ring
      rw [hlen] at hbound
      linarith
    have hgap : m ≤ (nums.map (fun n => if m < f * n then f * n else 0)).sum
        - (nums.map (fun n => if f * n < m then m - f * n else 0)).sum := by
      rw [hkey]
      nlinarith
    constructor
    · rw [hsum2_eq]
      have hfun : (fun n : ℚ => n -
          (nums.map (fun n => if f * n < m then m - f * n else 0)).sum *
            (if m < n then n / (nums.map (fun n => if m < f * n then f * n else 0)).sum else 0))
          = (fun n : ℚ => n -
            ((nums.map (fun n => if f * n < m then m - f * n else 0)).sum /
              (nums.map (fun n => if m < f * n then f * n else 0)).sum) *
              (if m < n then n else 0)) := by
        funext n
        split
        · ring
        · ring
      rw [hfun, listSumMapSub]
      simp only [List.map_id']
      rw [List.sum_map_mul_left, hsum2_eq, hscaled_sum]
      rw [div_mul_cancel₀ _ (ne_of_gt hsum2_pos)]
      ring
    · rw [hsum2_eq]
      intro y hy
      obtain ⟨c, hcmem, rfl⟩ := List.mem_map.mp hy
      have hcm : m ≤ c := by
        obtain ⟨x, hx, rfl⟩ := List.mem_map.mp hcmem
        split
        · exact le_refl m
        · rename_i hnlt
          exact not_lt.mp hnlt
      by_cases hmc : m < c
      · rw [if_pos hmc]
        have hc0 : 0 < c := lt_trans hm hmc
        have hlt1 : (nums.map (fun n => if f * n < m then m - f * n else 0)).sum
            / (nums.map (fun n => if m < f * n then f * n else 0)).sum < 1 := by
          rw [div_lt_one hsum2_pos]
          linarith
        have hmul : (nums.map (fun n => if f * n < m then m - f * n else 0)).sum * (c /
            (nums.map (fun n => if m < f * n then f * n else 0)).sum)
            = c * ((nums.map (fun n => if f * n < m then m - f * n else 0)).sum /
              (nums.map (fun n => if m < f * n then f * n else 0)).sum) := by
          ring
        rw [hmul]
        nlinarith
      · rw [if_neg hmc]
        simp only [mul_zero, sub_zero]
        linarith

/-- `scaleAdjust` returns one width per input weight. -/
theorem scaleAdjust_length (nums : List ℚ) (w m : ℚ) :
    (scaleAdjust nums w m).length = nums.length := by
  rw [scaleAdjust]
  split
  · simp
  · simp

/-- The widths written back by `assignWidths` are exactly the computed
width list. -/
theorem assignWidths_widths (rs : List Region) (ws : List ℚ) (dx : ℚ)
    (h : rs.length = ws.length) :
    (assignWidths rs ws dx).map Region.width = ws := by
  induction rs generalizing ws dx with
  | nil =>
    cases ws with
    | nil => simp [assignWidths]
    | cons w ws => simp at h
  | cons r rs ih =>
    cases ws with
    | nil => simp at h
    | cons w ws =>
      simp only [assignWidths, List.map_cons]
      rw [ih ws (dx + w + 2) (by simpa using h)]

/-- `assignWidths` never touches chromosome, start or end. -/
theorem assignWidths_coords (rs : List Region) (ws : List ℚ) (dx : ℚ) :
    (assignWidths rs ws dx).map coordsOf = rs.map coordsOf := by
  induction rs generalizing ws dx with
  | nil =>
    cases ws <;> simp [assignWidths]
  | cons r rs ih =>
    cases ws with
    | nil => simp [assignWidths]
    | cons w ws =>
      simp only [assignWidths, List.map_cons]
      rw [ih ws (dx + w + 2)]
      simp [coordsOf]

/-- `assignWidths` preserves the number of regions. -/
theorem assignWidths_length (rs : List Region) (ws : List ℚ) (dx : ℚ) :
    (assignWidths rs ws dx).length = rs.length := by
  induction rs generalizing ws dx with
  | nil => cases ws <;> simp [assignWidths]
  | cons r rs ih =>
    cases ws with
    | nil => simp [assignWidths]
    | cons w ws =>
      simp only [assignWidths, List.length_cons]
      rw [ih ws (dx + w + 2)]

/-- Re-running `assignWidths` with the same width list changes nothing:
it overwrites width, length and deltaX with values that depend only on the
width list and the (untouched) start/end fields. -/
theorem assignWidths_idem (rs : List Region) (ws : List ℚ) (dx : ℚ) :
    assignWidths (assignWidths rs ws dx) ws dx = assignWidths rs ws dx := by
  induction rs generalizing ws dx with
  | nil => cases ws <;> simp [assignWidths]
  | cons r rs ih =>
    cases ws with
    | nil => simp [assignWidths]
    | cons w ws =>
      simp only [assignWidths]
      rw [ih ws (dx + w + 2)]

/-- `layoutStrip` never modifies any region's chromosome, start or end. -/
theorem layoutStrip_coords (s : Strip) (W : ℚ) :
    (layoutStrip s W).regions.map coordsOf = s.regions.map coordsOf := by
  rw [layoutStrip]
  exact assignWidths_coords ..

/-- The widths after `layoutStrip` are exactly `scaleAdjust` of the input
weights over the available width. -/
theorem layoutStrip_widths (s : Strip) (W : ℚ) :
    (layoutStrip s W).regions.map Region.width =
      scaleAdjust (s.regions.map (fun r => if r.width = 0 then 25 else r.width))
        (W - (12 + 2 * ((s.regions.length : ℚ) - 1))) 25 := by
  rw [layoutStrip]
  simp only
  rw [assignWidths_widths]
  rw [scaleAdjust_length]
  simp

/-- When no entry falls below the minimum, `layoutStrip` is plain
proportional scaling: each weight is multiplied by
`availableWidth / Σ weights` and written back. -/
theorem layoutStrip_noClamp (s : Strip) (W : ℚ)
    (hnc : ∀ x ∈ s.regions.map (fun r => if r.width = 0 then 25 else r.width),
      ¬((W - (12 + 2 * ((s.regions.length : ℚ) - 1))) /
          (s.regions.map (fun r => if r.width = 0 then 25 else r.width)).sum * x < 25)) :
    layoutStrip s W = { s with regions := (assignWidths s.regions
      ((s.regions.map (fun r => if r.width = 0 then 25 else r.width)).map
        (fun x => (W - (12 + 2 * ((s.regions.length : ℚ) - 1))) /
          (s.regions.map (fun r => if r.width = 0 then 25 else r.width)).sum * x)) 12) } := by
  rw [layoutStrip]
  rw [scaleAdjust]
  have hdef0 : ((s.regions.map (fun r => if r.width = 0 then 25 else r.width)).map
      (fun n => if (W - (12 + 2 * ((s.regions.length : ℚ) - 1))) /
          (s.regions.map (fun r => if r.width = 0 then 25 else r.width)).sum * n < 25
        then 25 - (W - (12 + 2 * ((s.regions.length : ℚ) - 1))) /
          (s.regions.map (fun r => if r.width = 0 then 25 else r.width)).sum * n
        else 0)).sum = 0 := by
    rw [List.map_congr_left (fun x hx => if_neg (hnc x hx))]
    generalize (s.regions.map (fun r => if r.width = 0 then 25 else r.width)) = l
    simp
  rw [if_pos hdef0]
  rw [List.map_congr_left (fun x hx => if_neg (hnc x hx))]

/-- Idempotence of `layoutStrip` when the first run needs no clamping. -/
theorem layoutStripIdemAux (s : Strip) (W : ℚ) (h1 : s.regions ≠ [])
    (h2 : ∀ r ∈ s.regions, 0 < r.width)
    (h3 : ∀ r ∈ s.regions, 25 ≤ (W - (12 + 2 * ((s.regions.length : ℚ) - 1))) /
      (s.regions.map Region.width).sum * r.width) :
    layoutStrip (layoutStrip s W) W = layoutStrip s W := by
  have hw0 : s.regions.map (fun r => if r.width = 0 then 25 else r.width)
      = s.regions.map Region.width :=
    List.map_congr_left (fun r hr => if_neg (ne_of_gt (h2 r hr)))
  have hnc1 : ∀ x ∈ s.regions.map (fun r => if r.width = 0 then 25 else r.width),
      ¬((W - (12 + 2 * ((s.regions.length : ℚ) - 1))) /
        (s.regions.map (fun r => if r.width = 0 then 25 else r.width)).sum * x < 25) := by
    rw [hw0]
    intro x hx
    obtain ⟨r, hr, rfl⟩ := List.mem_map.mp hx
    exact not_lt.mpr (h3 r hr)
  have hfirst := layoutStrip_noClamp s W hnc1
  rw [hw0] at hfirst
  have hSpos : 0 < (s.regions.map Region.width).sum := by
    apply List.sum_pos
    · intro y hy
      obtain ⟨r, hr, rfl⟩ := List.mem_map.mp hy
      exact h2 r hr
    · simpa using h1
  set A := W - (12 + 2 * ((s.regions.length : ℚ) - 1)) with hA
  set ws := (s.regions.map Region.width).map
    (fun x => A / (s.regions.map Region.width).sum * x) with hws
  have hwsge : ∀ y ∈ ws, 25 ≤ y := by
    intro y hy
    rw [hws] at hy
    obtain ⟨x, hx, rfl⟩ := List.mem_map.mp hy
    obtain ⟨r, hr, rfl⟩ := List.mem_map.mp hx
    exact h3 r hr
  have hlen_ws : ws.length = s.regions.length := by simp [hws]
  set regions1 := assignWidths s.regions ws 12 with hr1
  have hlen1 : regions1.length = s.regions.length := assignWidths_length s.regions ws 12
  have hmap1 : regions1.map Region.width = ws :=
    assignWidths_widths s.regions ws 12 hlen_ws.symm
  have hwsne : ws ≠ [] := by
    intro hcon
    rw [hcon] at hlen_ws
    simp at hlen_ws
    exact h1 (List.length_eq_zero.mp hlen_ws.symm)
  have hwsum : ws.sum = A := by
    rw [hws, List.sum_map_mul_left (s.regions.map Region.width) (fun x => x)]
    simp only [List.map_id']
    rw [div_mul_cancel₀ _ (ne_of_gt hSpos)]
  have hApos : 0 < A := by
    rw [← hwsum]
    apply List.sum_pos
    · intro y hy
      exact lt_of_lt_of_le (by norm_num) (hwsge y hy)
    · exact hwsne
  have hw0' : regions1.map (fun r => if r.width = 0 then 25 else r.width)
      = regions1.map Region.width := by
    apply List.map_congr_left
    intro r hr
    have hmem : Region.width r ∈ regions1.map Region.width :=
      List.mem_map_of_mem Region.width hr
    rw [hmap1] at hmem
    exact if_neg (ne_of_gt (lt_of_lt_of_le (by norm_num) (hwsge _ hmem)))
  have hnc2 : ∀ x ∈ regions1.map (fun r => if r.width = 0 then 25 else r.width),
      ¬((W - (12 + 2 * ((regions1.length : ℚ) - 1))) /
        (regions1.map (fun r => if r.width = 0 then 25 else r.width)).sum * x < 25) := by
    rw [hw0', hmap1, hlen1, hwsum, ← hA, div_self (ne_of_gt hApos)]
    intro x hx
    rw [one_mul]
    exact not_lt.mpr (hwsge x hx)
  have hsecond := layoutStrip_noClamp { s with regions := regions1 } W hnc2
  have hws2 : (regions1.map (fun r => if r.width = 0 then 25 else r.width)).map
      (fun x => (W - (12 + 2 * ((regions1.length : ℚ) - 1))) /
        (regions1.map (fun r => if r.width = 0 then 25 else r.width)).sum * x) = ws := by
    rw [hw0', hmap1, hlen1, hwsum, ← hA, div_self (ne_of_gt hApos)]
    rw [show (fun x : ℚ => 1 * x) = (fun x : ℚ => x) from funext fun x => one_mul x]
    exact List.map_id ws
  dsimp only at hsecond
  rw [hws2] at hsecond
  rw [hr1] at hsecond
  rw [assignWidths_idem] at hsecond
  rw [← hr1] at hsecond
  rw [hfirst]
  exact hsecond

/-- Region with the given width on window [1, 10] (only the width matters
to the layout scenarios). -/
def mkR (wid : ℚ) : Region :=
  { genome := "G", chr := "1", start := 1, «end» := 10,
    width := wid, deltaX := 0, length := 0, reversed := false }

/-- Two weight-1 regions: at total width 54 both clamp to the minimum. -/
def demoStripClamped : Strip := { genome := "G", regions := [mkR 1, mkR 1] }

/-- Weights [1, 1000]: at total width 44 the deficit redistribution leaves
a width of 5, below the minimum. -/
def demoStripResid : Strip := { genome := "G", regions := [mkR 1, mkR 1000] }

/-- Ten weight-1 regions and one weight-100 region: at total width 142 the
deficit (240) exceeds the large region's scaled width (100). -/
def demoStripNeg : Strip :=
  { genome := "G", regions := [mkR 1, mkR 1, mkR 1, mkR 1, mkR 1, mkR 1, mkR 1,
      mkR 1, mkR 1, mkR 1, mkR 100] }

/-- Two weight-1 regions at total width 114: no clamping
(each scales to 50). -/
def demoStripOK : Strip := { genome := "G", regions := [mkR 1, mkR 1] }

/-- One-base region [5, 5], the shortest legal window. -/
def demoZoomTinyRegion : Region :=
  { genome := "G", chr := "1", start := 5, «end» := 5,
    width := 1, deltaX := 0, length := 0, reversed := false }

/-- Region [100, 199] of the spec's split example. -/
def demoSplitRegion : Region :=
  { genome := "G", chr := "1", start := 100, «end» := 199,
    width := 10, deltaX := 0, length := 0, reversed := false }

/-- C2 counterexample: three operations the claim covers do produce
malformed regions.  `zoomScrollRegion` with `zoomFactor = 1/2 > 0` on the
one-base region [5,5] yields start 5 > end 4; `layoutStrip` on weights
[1×10, 100] at total width 142 writes the width -140 < 0; and
`splitRegion` at fraction 1 on [100,199] gives the new sibling
start 200 > end 199. -/
theorem region_wellformedness_cex :
    zoomScrollRegion demoZoomTinyRegion (1/2) 0 =
      some { demoZoomTinyRegion with start := 5, «end» := 4 } ∧
    (layoutStrip demoStripNeg 142).regions.map Region.width
      = [25, 25, 25, 25, 25, 25, 25, 25, 25, 25, -140] ∧
    (splitRegionPair demoSplitRegion 1).2.start = 200 ∧
    (splitRegionPair demoSplitRegion 1).2.«end» = 199 := by
  refine ⟨?_, ?_, ?_⟩
  · rw [zoomScrollRegion]
    norm_num [demoZoomTinyRegion]
  · norm_num [layoutStrip, scaleAdjust, assignWidths, demoStripNeg, mkR]
  · rw [splitRegionPair]
    norm_num [demoSplitRegion]

/-- C2 (amended): layout never modifies chromosome/start/end, so
`start ≤ end` holds at rest exactly when it held before layout; post-layout
widths are all positive provided `availableWidth ≥ minWidth × n` (n ≥ 1
regions of positive weight); `zoomScrollRegion` (with `zoomFactor > 0`)
preserves `start ≤ end` provided `zoomFactor × L ≥ 1`; and `splitRegion`
yields two regions with `start ≤ end` provided
`1 ≤ floor(fraction × L) ≤ L - 1`. -/
theorem region_wellformedness_amended :
    (∀ (s : Strip) (W : ℚ),
      (layoutStrip s W).regions.map coordsOf = s.regions.map coordsOf) ∧
    (∀ (s : Strip) (W : ℚ), s.regions ≠ [] → (∀ r ∈ s.regions, 0 < r.width) →
      25 * (s.regions.length : ℚ) ≤ W - (12 + 2 * ((s.regions.length : ℚ) - 1)) →
      ∀ r ∈ (layoutStrip s W).regions, 0 < r.width) ∧
    (∀ (r : Region) (z sc : ℚ), 0 < z → 1 ≤ z * (r.«end» - r.start + 1) →
      ∃ r2, zoomScrollRegion r z sc = some r2 ∧ r2.start ≤ r2.«end») ∧
    (∀ (r : Region) (frac : ℚ),
      1 ≤ ((⌊frac * (r.«end» - r.start + 1)⌋ : ℤ) : ℚ) →
      ((⌊frac * (r.«end» - r.start + 1)⌋ : ℤ) : ℚ) ≤ (r.«end» - r.start + 1) - 1 →
      (splitRegionPair r frac).1.start ≤ (splitRegionPair r frac).1.«end» ∧
        (splitRegionPair r frac).2.start ≤ (splitRegionPair r frac).2.«end») := by
  refine ⟨layoutStrip_coords, ?_, ?_, ?_⟩
  · intro s W h1 h2 h3 r hr
    have hmem : r.width ∈ (layoutStrip s W).regions.map Region.width :=
      List.mem_map_of_mem _ hr
    rw [layoutStrip_widths] at hmem
    have hspec := scaleAdjust_spec
      (s.regions.map (fun r => if r.width = 0 then 25 else r.width))
      (W - (12 + 2 * ((s.regions.length : ℚ) - 1))) 25
      (by simpa using h1)
      (by
        intro y hy
        obtain ⟨x, hx, rfl⟩ := List.mem_map.mp hy
        split
        · norm_num
        · exact h2 x hx)
      (by norm_num)
      (by simpa using h3)
    exact hspec.2 _ hmem
  · intro r z sc hz hL
    rw [zoomScrollRegion, if_neg (not_le.mpr hz)]
    refine ⟨_, rfl, ?_⟩
    simp only
    set L2 := z * (r.«end» - r.start + 1) with hL2
    set s2 : ℤ := ⌊(r.start + r.«end») / 2 - L2 / 2 +
      sc * ((r.«end» - r.start + 1) ⊔ L2) * (if r.reversed then -1 else 1) + 1⌋ with hs2
    have hsplit : (s2 : ℚ) + L2 - 1 = (s2 : ℚ) + (L2 - 1) := by ring
    rw [hsplit, Int.floor_int_add]
    have h0 : 0 ≤ ⌊L2 - 1⌋ := by
      apply Int.le_floor.mpr
      push_cast
      linarith
    exact_mod_cast le_add_of_nonneg_right h0
  · intro r frac h1 h2
    rw [splitRegionPair]
    split
    · constructor
      · simp only
        linarith
      · simp only
        linarith
    · constructor
      · simp only
        linarith
      · simp only
        linarith

/-- Witness for `region_wellformedness_amended`: positivity at the
no-clamp strip and width 114, order preservation of zoom 2 on [1000,2000]
and of the spec's split (fraction 3/10 on [100,199]). -/
theorem region_wellformedness_amended_witness :
    (∀ r ∈ (layoutStrip demoStripOK 114).regions, 0 < r.width) ∧
    (∃ r2, zoomScrollRegion demoZoomRegion 2 0 = some r2 ∧ r2.start ≤ r2.«end») ∧
    ((splitRegionPair demoSplitRegion (3/10)).1.start ≤
        (splitRegionPair demoSplitRegion (3/10)).1.«end» ∧
      (splitRegionPair demoSplitRegion (3/10)).2.start ≤
        (splitRegionPair demoSplitRegion (3/10)).2.«end») :=
  ⟨region_wellformedness_amended.2.1 demoStripOK 114
      (by simp [demoStripOK, mkR])
      (by norm_num [demoStripOK, mkR])
      (by norm_num [demoStripOK, mkR]),
    region_wellformedness_amended.2.2.1 demoZoomRegion 2 0 (by norm_num)
      (by norm_num [demoZoomRegion]),
    region_wellformedness_amended.2.2.2 demoSplitRegion (3/10)
      (by norm_num [demoSplitRegion])
      (by norm_num [demoSplitRegion])⟩

/-- C3 counterexample: on two weight-1 regions at total width 54 every
entry clamps to the minimum 25, the deficit has nowhere to go (`sum2 = 0`),
and the widths total 50, so
`Σ width + leadingOffset + gap × (n-1) = 64 ≠ 54`. -/
theorem layout_sum_cex :
    ((layoutStrip demoStripClamped 54).regions.map Region.width).sum
      + 12 + 2 * ((demoStripClamped.regions.length : ℚ) - 1) = 64 := by
  norm_num [layoutStrip, scaleAdjust, assignWidths, demoStripClamped, mkR]

/-- C3 (amended): for every strip of n ≥ 1 regions with positive stored
weights, the final widths satisfy
`Σ width + leadingOffset(12) + gap(2) × (n-1) = totalWidth` exactly,
including when clamping and the deficit redistribution apply, provided
`availableWidth ≥ minWidth × n`; when every entry clamps (possible below
that bound) the total is `minWidth × n + 12 + 2 × (n-1)` instead. -/
theorem layout_sum_amended (s : Strip) (W : ℚ) (h1 : s.regions ≠ [])
    (h2 : ∀ r ∈ s.regions, 0 < r.width)
    (h3 : 25 * (s.regions.length : ℚ) ≤ W - (12 + 2 * ((s.regions.length : ℚ) - 1))) :
    ((layoutStrip s W).regions.map Region.width).sum
      + 12 + 2 * ((s.regions.length : ℚ) - 1) = W := by
  rw [layoutStrip_widths]
  have hspec := scaleAdjust_spec
    (s.regions.map (fun r => if r.width = 0 then 25 else r.width))
    (W - (12 + 2 * ((s.regions.length : ℚ) - 1))) 25
    (by simpa using h1)
    (by
      intro y hy
      obtain ⟨x, hx, rfl⟩ := List.mem_map.mp hy
      split
      · norm_num
      · exact h2 x hx)
    (by norm_num)
    (by simpa using h3)
  rw [hspec.1]
  ring

/-- Witness for `layout_sum_amended`: the no-clamp strip at width 114. -/
theorem layout_sum_amended_witness :
    ((layoutStrip demoStripOK 114).regions.map Region.width).sum
      + 12 + 2 * ((demoStripOK.regions.length : ℚ) - 1) = 114 :=
  layout_sum_amended demoStripOK 114
    (by simp [demoStripOK, mkR])
    (by norm_num [demoStripOK, mkR])
    (by norm_num [demoStripOK, mkR])

/-- C9 counterexample: on weights [1, 1000] at total width 44 the first
layout leaves the widths [25, 5] (a clamp residual below the minimum); a
second layout immediately after, with no intervening mutation, re-clamps
and produces [25, 25] — so running layout twice is not the identity on the
first run's result. -/
theorem layout_idempotent_cex :
    ((layoutStrip demoStripResid 44).regions.map Region.width) = [25, 5] ∧
    ((layout (layout [demoStripResid] 44) 44).map
        (fun s => s.regions.map Region.width)) = [[25, 25]] ∧
    layout (layout [demoStripResid] 44) 44 ≠ layout [demoStripResid] 44 := by
  refine ⟨?_, ?_, ?_⟩
  · norm_num [layoutStrip, scaleAdjust, assignWidths, demoStripResid, mkR]
  · norm_num [layout, layoutStrip, scaleAdjust, assignWidths, demoStripResid, mkR]
  · intro hEq
    have hc := congrArg (fun l => l.map (fun s => s.regions.map Region.width)) hEq
    norm_num [layout, layoutStrip, scaleAdjust, assignWidths, demoStripResid, mkR] at hc

/-- C9 (amended): `layout` run twice in succession with no intervening
mutation produces identical results provided the first run clamps nothing,
i.e. every region's proportionally scaled width is at least the minimum
25; when the first run leaves a clamp residual below the minimum, the
second run re-clamps it and the widths differ. -/
theorem layout_idempotent_amended (strips : List Strip) (W : ℚ)
    (h : ∀ s ∈ strips, s.regions ≠ [] ∧ (∀ r ∈ s.regions, 0 < r.width) ∧
      (∀ r ∈ s.regions, 25 ≤ (W - (12 + 2 * ((s.regions.length : ℚ) - 1))) /
        (s.regions.map Region.width).sum * r.width)) :
    layout (layout strips W) W = layout strips W := by
  simp only [layout, List.map_map]
  apply List.map_congr_left
  intro s hs
  obtain ⟨h1, h2, h3⟩ := h s hs
  exact layoutStripIdemAux s W h1 h2 h3

/-- Witness for `layout_idempotent_amended`: the no-clamp strip at
width 114, where each weight-1 region scales to width 50 ≥ 25. -/
theorem layout_idempotent_amended_witness :
    layout (layout [demoStripOK] 114) 114 = layout [demoStripOK] 114 :=
  layout_idempotent_amended [demoStripOK] 114
    (by
      intro s hs
      simp only [List.mem_singleton] at hs
      subst hs
      refine ⟨by simp [demoStripOK, mkR], by norm_num [demoStripOK, mkR], ?_⟩
      norm_num [demoStripOK, mkR])

end MGV
